import Mathlib

/-!
Shallow embedding of `src/lib/content.js`: parsing of content path specs
(`parseCandidateFiles` / `parseContentPath`), relative-path resolution
(`resolveRelativePaths`), symlink expansion (`resolvePathSymlinks`), and
incremental change tracking (`resolveChangedFiles` /
`resolvedChangedContent`).

External collaborators (the `normalize-path` and `is-glob` npm packages,
`parseGlob` from `src/util/parseGlob`, Node's `path` and `fs` modules, and
the `fast-glob` engine) are modelled as abstract function parameters bundled
into an `Env` (pure path utilities) and an `FS` (filesystem observations).
Fallible filesystem calls (`fs.realpathSync`, `fs.readFileSync`) return
`Option`, with `none` standing for a thrown exception.  The mutable
`Map<string, number>` watermark table is modelled as a function
`String → Option Int` threaded through explicitly; `none` means the key is
absent from the table (the code substitutes `-Infinity` on lookup, so
comparisons against an absent entry always succeed).
-/

namespace TailwindContent

/-- ContentPath record from `content.js`: `original` is the normalized input
string, `base` the (eventually absolute) glob root, and `glob` the optional
glob suffix (`null`/`none` for literal paths). -/
structure ContentPath where
  original : String
  base : String
  glob : Option String
deriving DecidableEq

/-- Entry of `tailwindConfig.content.files`: either a path/glob string
(`FilePath`) or an inline raw record (`RawFile`) with optional extension. -/
inductive ConfigFile where
  | path (s : String)
  | raw (content : String) (extension : Option String)
deriving DecidableEq

/-- Record produced by `resolvedChangedContent`: a content string tagged with
its extension. -/
structure ContentOut where
  content : String
  extension : String
deriving DecidableEq

/-- Watermark table `Map<string, number>`: `none` means the file was never
observed (logical watermark negative infinity). -/
abbrev WMap := String → Option Int

/-- Empty watermark table, as created by the caller at session start. -/
def emptyWM : WMap := fun _ => none

/-- Overwrite of one entry of the watermark table (`fileModifiedMap.set`). -/
def wmSet (m : WMap) (k : String) (v : Int) : WMap :=
  fun k2 => if k2 = k then some v else m k2

/-- Pure external path utilities: `normalize-path`, `is-glob`, `parseGlob`
(from `src/util/parseGlob`), `path.dirname`, `path.resolve` and
`path.extname`.  `pathResolve roots s` stands for
`path.resolve(...roots, s)`; with `roots = []` Node resolves against the
current working directory, which is implicit in the environment. -/
structure Env where
  normalizePath : String → String
  isGlob : String → Bool
  parseGlob : String → String × String
  dirname : String → String
  pathResolve : List String → String → String
  extname : String → String

/-- Filesystem observations: `realpath` is `fs.realpathSync` (`none` = the
call threw), `glob` is `fastGlob.sync(paths, absolute)`, `mtime` is
`fs.statSync(file).mtimeMs`, and `read` is `fs.readFileSync(file, utf8)`
(`none` = the call threw, e.g. the file vanished). -/
structure FS where
  realpath : String → Option String
  glob : List String → List String
  mtime : String → Int
  read : String → Option String

/-- Resolution context: `context.userConfigPath` (`none` = unset) and the
value of `flagEnabled(context.tailwindConfig, resolveContentRelativeToConfig)`. -/
structure Context where
  userConfigPath : Option String
  resolveContentRelativeToConfig : Bool

/-- JavaScript truthiness of an optional string: `null`/`undefined` and the
empty string are falsy. -/
def jsTruthy : Option String → Bool
  | none => false
  | some s => decide (s ≠ "")

/-- Value of an optional string, defaulting to the empty string; only read
under a `jsTruthy` guard, mirroring `path.dirname(context.userConfigPath)`. -/
def optStr : Option String → String
  | none => ""
  | some s => s

/-- Classification step of `parseContentPath` (content.js lines 50-61):
normalize separators, then either split a glob input into base and pattern
via `parseGlob` or keep a literal input whole with a `none` pattern. -/
def classifyContentPath (env : Env) (filePath : String) : List ContentPath :=
  let fp := env.normalizePath filePath
  if env.isGlob fp then
    let bg := env.parseGlob fp
    [ContentPath.mk fp bg.1 (some bg.2)]
  else
    [ContentPath.mk fp fp none]

/-- Embedding of `resolveRelativePaths` (content.js lines 77-93): when the
user config path is truthy and the feature flag is enabled, every base is
resolved with the config file directory prepended; otherwise it is resolved
against the current working directory alone. -/
def resolveRelativePaths (env : Env) (ctx : Context) (contentPaths : List ContentPath) :
    List ContentPath :=
  let resolveFrom : List String :=
    if jsTruthy ctx.userConfigPath && ctx.resolveContentRelativeToConfig then
      [env.dirname (optStr ctx.userConfigPath)]
    else []
  contentPaths.map fun cp =>
    ContentPath.mk cp.original (env.pathResolve resolveFrom cp.base) cp.glob

/-- Embedding of `resolvePathSymlinks` (content.js lines 104-115): attempt
`fs.realpathSync(base)`; on success with a different path return the spec
plus a clone re-based at the real path, otherwise (equal path, or the call
threw) return the spec alone. -/
def resolvePathSymlinks (fs : FS) (contentPath : ContentPath) : List ContentPath :=
  match fs.realpath contentPath.base with
  | some newPath =>
    if newPath ≠ contentPath.base then
      [contentPath, ContentPath.mk contentPath.original newPath contentPath.glob]
    else
      [contentPath]
  | none => [contentPath]

/-- Embedding of `parseContentPath` (content.js lines 45-67): non-string
entries yield no specs; string entries are classified, made absolute, and
symlink-expanded. -/
def parseContentPath (env : Env) (fs : FS) (ctx : Context) (filePath : ConfigFile) :
    List ContentPath :=
  match filePath with
  | ConfigFile.raw _ _ => []
  | ConfigFile.path s =>
    let paths := classifyContentPath env s
    let paths := resolveRelativePaths env ctx paths
    paths.flatMap (resolvePathSymlinks fs)

/-- Embedding of `parseCandidateFiles` (content.js lines 33-37). -/
def parseCandidateFiles (env : Env) (fs : FS) (ctx : Context) (files : List ConfigFile) :
    List ContentPath :=
  files.flatMap (parseContentPath env fs ctx)

/-- Test `s.startsWith('!')` from the source, written on the character list
(a one-character search string begins the string iff it is its head) so that
concrete instances evaluate inside the kernel. -/
def startsWithBang (s : String) : Bool :=
  match s.data with
  | [] => false
  | c :: _ => decide (c = ('!'))

/-- Absoluteness predicate for POSIX paths (leading slash), used to state
the contract of the external `path.resolve`. -/
def isAbsolutePath (s : String) : Bool :=
  match s.data with
  | [] => false
  | c :: _ => decide (c = ('/'))

/-- Query pattern built for one spec in `resolveChangedFiles` (content.js
lines 144-150): exclusion specs contribute their `original` verbatim, glob
specs contribute `base/glob`, literal specs contribute `base`. -/
def contentPattern (cp : ContentPath) : String :=
  if startsWithBang cp.original then cp.original
  else
    match cp.glob with
    | some g => cp.base ++ ("/") ++ g
    | none => cp.base

/-- Comparison `modified > prevModified` with an absent entry read as
negative infinity (content.js lines 156-159). -/
def newerThan (prevModified : Option Int) (modified : Int) : Bool :=
  match prevModified with
  | none => true
  | some p => decide (p < modified)

/-- Addition to the JS `Set` of changed files: insertion order is kept and
duplicates are ignored. -/
def addToSet (s : List String) (f : String) : List String :=
  if f ∈ s then s else s ++ [f]

/-- Loop body of `resolveChangedFiles` (content.js lines 155-163), iterating
over the glob results while threading the changed set and the watermark
table. -/
def processFiles (fs : FS) : List String → List String × WMap → List String × WMap
  | [], acc => acc
  | file :: rest, (changed, m) =>
    let modified := fs.mtime file
    if newerThan (m file) modified then
      processFiles fs rest (addToSet changed file, wmSet m file modified)
    else
      processFiles fs rest (changed, m)

/-- Embedding of `resolveChangedFiles` (content.js lines 143-166): expand all
query patterns in one glob call, then keep exactly the files whose mtime is
newer than their watermark, updating the watermark for those.  Returns the
changed set (in insertion order) together with the updated table. -/
def resolveChangedFiles (fs : FS) (candidateFiles : List ContentPath)
    (fileModifiedMap : WMap) : List String × WMap :=
  let paths := candidateFiles.map contentPattern
  let files := fs.glob paths
  processFiles fs files ([], fileModifiedMap)

/-- Raw inline entries extracted from `tailwindConfig.content.files`
(content.js lines 124-126): keep records whose `raw` is a string, and tag
each with its declared extension, defaulting to html. -/
def rawEntries (files : List ConfigFile) : List ContentOut :=
  files.filterMap fun item =>
    match item with
    | ConfigFile.raw c ext => some (ContentOut.mk c (ext.getD ("html")))
    | ConfigFile.path _ => none

/-- Read loop of `resolvedChangedContent` (content.js lines 128-132): read
every changed file in set order, appending its content tagged with
`path.extname(file).slice(1)`; a failed read propagates as an error carrying
the offending file. -/
def readChanged (fs : FS) (env : Env) (acc : List ContentOut) :
    List String → Except String (List ContentOut)
  | [] => Except.ok acc
  | file :: rest =>
    match fs.read file with
    | none => Except.error file
    | some content =>
      readChanged fs env (acc ++ [ContentOut.mk content ((env.extname file).drop 1)]) rest

/-- Embedding of `resolvedChangedContent` (content.js lines 123-135): raw
inline entries first, then the contents of the changed files.  The watermark
table returned is the one produced by `resolveChangedFiles`, fully updated
before any read happens (the JS `Set` is materialised before the `for..of`
loop), so it is advanced even when a read throws. -/
def resolvedChangedContent (fs : FS) (env : Env) (configFiles : List ConfigFile)
    (candidateFiles : List ContentPath) (fileModifiedMap : WMap) :
    Except String (List ContentOut) × WMap :=
  let changedContent := rawEntries configFiles
  let r := resolveChangedFiles fs candidateFiles fileModifiedMap
  (readChanged fs env changedContent r.1, r.2)

/-- Change condition of one file relative to a fixed watermark table: its
on-disk mtime is strictly newer than its stored watermark (absent entries
compare as negative infinity). -/
def changedCond (fs : FS) (m0 : WMap) (f : String) : Bool :=
  newerThan (m0 f) (fs.mtime f)

/-- Loop invariant for `processFiles`, relative to the table `m0` the loop
started from: every file already in the changed set satisfied the change
condition and has its watermark advanced to its mtime, and every other key
still has its original watermark. -/
def Consistent (fs : FS) (m0 : WMap) (changed : List String) (m : WMap) : Prop :=
  ∀ f, (f ∈ changed → changedCond fs m0 f = true ∧ m f = some (fs.mtime f)) ∧
    (f ∉ changed → m f = m0 f)

theorem consistent_init (fs : FS) (m0 : WMap) : Consistent fs m0 [] m0 := by
  intro f
  exact ⟨fun h => absurd h (List.not_mem_nil f), fun _ => rfl⟩

theorem processFiles_spec (fs : FS) (m0 : WMap) :
    ∀ (files : List String) (changed : List String) (m : WMap),
      Consistent fs m0 changed m →
      (∀ f, f ∈ (processFiles fs files (changed, m)).1 ↔
        f ∈ changed ∨ (f ∈ files ∧ changedCond fs m0 f = true)) ∧
      Consistent fs m0 (processFiles fs files (changed, m)).1
        (processFiles fs files (changed, m)).2 := by
  intro files
  induction files with
  | nil =>
    intro changed m h
    refine ⟨fun f => ?_, h⟩
    simp [processFiles]
  | cons file rest ih =>
    intro changed m h
    by_cases hc : newerThan (m file) (fs.mtime file) = true
    · have hfile : file ∉ changed := by
        intro hmem
        have h1 := (h file).1 hmem
        rw [h1.2] at hc
        simp [newerThan] at hc
      have hm0 : m file = m0 file := (h file).2 hfile
      have hcond : changedCond fs m0 file = true := by
        rw [changedCond, ← hm0]
        exact hc
      have hadd : addToSet changed file = changed ++ [file] := by
        simp [addToSet, hfile]
      have hstep : processFiles fs (file :: rest) (changed, m) =
          processFiles fs rest (changed ++ [file], wmSet m file (fs.mtime file)) := by
        rw [processFiles, if_pos hc, hadd]
      have hcons : Consistent fs m0 (changed ++ [file]) (wmSet m file (fs.mtime file)) := by
        intro f
        constructor
        · intro hf
          rcases List.mem_append.mp hf with hf | hf
          · have h1 := (h f).1 hf
            have hne : f ≠ file := fun he => hfile (he ▸ hf)
            refine ⟨h1.1, ?_⟩
            simp [wmSet, hne, h1.2]
          · simp only [List.mem_singleton] at hf
            subst hf
            exact ⟨hcond, by simp [wmSet]⟩
        · intro hf
          have hne : f ≠ file := by
            intro he
            subst he
            exact hf (List.mem_append.mpr (Or.inr (by simp)))
          have hnc : f ∉ changed := fun hx => hf (List.mem_append.mpr (Or.inl hx))
          simp [wmSet, hne, (h f).2 hnc]
      have hIH := ih (changed ++ [file]) (wmSet m file (fs.mtime file)) hcons
      refine ⟨fun f => ?_, by rw [hstep]; exact hIH.2⟩
      rw [hstep, hIH.1 f]
      constructor
      · rintro (hf | hf)
        · rcases List.mem_append.mp hf with hf | hf
          · exact Or.inl hf
          · simp only [List.mem_singleton] at hf
            subst hf
            exact Or.inr ⟨List.mem_cons_self _ _, hcond⟩
        · exact Or.inr ⟨List.mem_cons_of_mem _ hf.1, hf.2⟩
      · rintro (hf | ⟨hmem, hcf⟩)
        · exact Or.inl (List.mem_append.mpr (Or.inl hf))
        · rcases List.mem_cons.mp hmem with he | hr
          · subst he
            exact Or.inl (List.mem_append.mpr (Or.inr (by simp)))
          · exact Or.inr ⟨hr, hcf⟩
    · have hc' : newerThan (m file) (fs.mtime file) = false := by
        simpa using hc
      have hstep : processFiles fs (file :: rest) (changed, m) =
          processFiles fs rest (changed, m) := by
        rw [processFiles, if_neg hc]
      have hIH := ih changed m h
      refine ⟨fun f => ?_, by rw [hstep]; exact hIH.2⟩
      rw [hstep, hIH.1 f]
      constructor
      · rintro (hf | ⟨hr, hcf⟩)
        · exact Or.inl hf
        · exact Or.inr ⟨List.mem_cons_of_mem _ hr, hcf⟩
      · rintro (hf | ⟨hmem, hcf⟩)
        · exact Or.inl hf
        · rcases List.mem_cons.mp hmem with he | hr
          · subst he
            by_cases hin : f ∈ changed
            · exact Or.inl hin
            · exfalso
              have hm0 : m f = m0 f := (h f).2 hin
              rw [changedCond, ← hm0] at hcf
              rw [hcf] at hc'
              exact Bool.noConfusion hc'
          · exact Or.inr ⟨hr, hcf⟩

theorem resolveChangedFiles_mem (fs : FS) (cand : List ContentPath) (m0 : WMap) (f : String) :
    f ∈ (resolveChangedFiles fs cand m0).1 ↔
      f ∈ fs.glob (cand.map contentPattern) ∧ changedCond fs m0 f = true := by
  have h := processFiles_spec fs m0 (fs.glob (cand.map contentPattern)) [] m0
    (consistent_init fs m0)
  rw [resolveChangedFiles]
  rw [h.1 f]
  simp

theorem resolveChangedFiles_consistent (fs : FS) (cand : List ContentPath) (m0 : WMap) :
    Consistent fs m0 (resolveChangedFiles fs cand m0).1 (resolveChangedFiles fs cand m0).2 := by
  have h := processFiles_spec fs m0 (fs.glob (cand.map contentPattern)) [] m0
    (consistent_init fs m0)
  exact h.2

theorem resolveChangedFiles_again_empty (fs : FS) (cand : List ContentPath) (m0 : WMap) :
    (resolveChangedFiles fs cand ((resolveChangedFiles fs cand m0).2)).1 = [] := by
  apply List.eq_nil_iff_forall_not_mem.mpr
  intro f hf
  rw [resolveChangedFiles_mem] at hf
  obtain ⟨hg, hc⟩ := hf
  have hcons := resolveChangedFiles_consistent fs cand m0
  by_cases hin : f ∈ (resolveChangedFiles fs cand m0).1
  · have h1 := (hcons f).1 hin
    rw [changedCond, h1.2] at hc
    simp [newerThan] at hc
  · have h1 := (hcons f).2 hin
    rw [changedCond, h1] at hc
    have hc0 : changedCond fs m0 f = false := by
      rw [resolveChangedFiles_mem] at hin
      by_cases hb : changedCond fs m0 f = true
      · exact absurd ⟨hg, hb⟩ hin
      · simpa using hb
    rw [changedCond] at hc0
    rw [hc0] at hc
    exact Bool.noConfusion hc

/-- Concrete filesystem used to instantiate theorems: one matching file at
/w/a.html with mtime 5, whose reads succeed, and no resolvable realpaths. -/
def fsW : FS :=
  ⟨fun _ => none, fun _ => [("/w/a.html")], fun _ => (5 : Int), fun _ => some ("x")⟩

/-- Concrete candidate spec list used to instantiate theorems. -/
def candW : List ContentPath := [ContentPath.mk ("src") ("/w/src") none]

/-- C1: every file produced by the glob expansion in `resolveChangedFiles`
is in the returned changed set iff its on-disk mtime is strictly greater
than its stored watermark (an absent entry reads as negative infinity, so it
always compares lower); exactly the added files get their watermark
overwritten with the new mtime, and skipped files keep their entry
unchanged. -/
theorem resolveChangedFiles_watermark_correct (fs : FS) (cand : List ContentPath)
    (m0 : WMap) (f : String) (hf : f ∈ fs.glob (cand.map contentPattern)) :
    (f ∈ (resolveChangedFiles fs cand m0).1 ↔ newerThan (m0 f) (fs.mtime f) = true) ∧
    (newerThan (m0 f) (fs.mtime f) = true →
      (resolveChangedFiles fs cand m0).2 f = some (fs.mtime f)) ∧
    (newerThan (m0 f) (fs.mtime f) = false →
      (resolveChangedFiles fs cand m0).2 f = m0 f) := by
  have hmem := resolveChangedFiles_mem fs cand m0 f
  have hcons := resolveChangedFiles_consistent fs cand m0
  refine ⟨by rw [hmem]; simp [changedCond, hf], ?_, ?_⟩
  · intro ht
    have hin : f ∈ (resolveChangedFiles fs cand m0).1 := hmem.mpr ⟨hf, ht⟩
    exact ((hcons f).1 hin).2
  · intro hfalse
    have hnin : f ∉ (resolveChangedFiles fs cand m0).1 := by
      rw [hmem]
      rintro ⟨-, hc⟩
      have hc2 : newerThan (m0 f) (fs.mtime f) = true := hc
      rw [hfalse] at hc2
      exact Bool.noConfusion hc2
    exact (hcons f).2 hnin

theorem resolveChangedFiles_watermark_correct_witness :
    ("/w/a.html") ∈ fsW.glob (candW.map contentPattern) ∧
    ((("/w/a.html") ∈ (resolveChangedFiles fsW candW emptyWM).1 ↔
        newerThan (emptyWM ("/w/a.html")) (fsW.mtime ("/w/a.html")) = true) ∧
      (newerThan (emptyWM ("/w/a.html")) (fsW.mtime ("/w/a.html")) = true →
        (resolveChangedFiles fsW candW emptyWM).2 ("/w/a.html") =
          some (fsW.mtime ("/w/a.html"))) ∧
      (newerThan (emptyWM ("/w/a.html")) (fsW.mtime ("/w/a.html")) = false →
        (resolveChangedFiles fsW candW emptyWM).2 ("/w/a.html") =
          emptyWM ("/w/a.html"))) :=
  ⟨by decide,
    resolveChangedFiles_watermark_correct fsW candW emptyWM ("/w/a.html") (by decide)⟩

/-- C2: starting from the empty watermark table and an unchanged filesystem,
the first `resolveChangedFiles` call reports exactly the full glob match
set, and an immediately repeated call on the updated table reports
nothing. -/
theorem resolveChangedFiles_first_full_second_empty (fs : FS) (cand : List ContentPath) :
    (∀ f, f ∈ (resolveChangedFiles fs cand emptyWM).1 ↔
      f ∈ fs.glob (cand.map contentPattern)) ∧
    (resolveChangedFiles fs cand ((resolveChangedFiles fs cand emptyWM).2)).1 = [] := by
  refine ⟨fun f => ?_, resolveChangedFiles_again_empty fs cand emptyWM⟩
  rw [resolveChangedFiles_mem]
  simp [changedCond, emptyWM, newerThan]

theorem resolveChangedFiles_first_full_second_empty_witness :
    (("/w/a.html") ∈ (resolveChangedFiles fsW candW emptyWM).1 ↔
      ("/w/a.html") ∈ fsW.glob (candW.map contentPattern)) ∧
    (resolveChangedFiles fsW candW ((resolveChangedFiles fsW candW emptyWM).2)).1 = [] :=
  ⟨(resolveChangedFiles_first_full_second_empty fsW candW).1 ("/w/a.html"),
    (resolveChangedFiles_first_full_second_empty fsW candW).2⟩

/-- Concrete filesystem in which the path /cwd resolves to the distinct real
path /real (a symlinked directory), and nothing else resolves. -/
def fsSym : FS :=
  ⟨fun s => if s = ("/cwd") then some ("/real") else none,
    fun _ => [], fun _ => (0 : Int), fun _ => none⟩

/-- Concrete exclusion spec whose base is the symlinked /cwd. -/
def exclSpec : ContentPath :=
  ContentPath.mk ("!ignored/**") ("/cwd") (some ("!ignored/**"))

/-- Concrete non-exclusion spec whose base is the symlinked /cwd. -/
def linkSpec : ContentPath :=
  ContentPath.mk ("link/a.css") ("/cwd") (some ("a.css"))

/-- C3 counterexample: an exclusion spec (original starting with the marker)
whose base has a distinct real path is NOT passed through unchanged by
`resolvePathSymlinks`; realpath resolution is attempted on its base and the
spec is duplicated. -/
theorem resolvePathSymlinks_exclusion_counterexample :
    startsWithBang exclSpec.original = true ∧
    resolvePathSymlinks fsSym exclSpec ≠ [exclSpec] ∧
    resolvePathSymlinks fsSym exclSpec =
      [exclSpec, ContentPath.mk ("!ignored/**") ("/real") (some ("!ignored/**"))] := by
  decide

/-- C3 (amended): `resolvePathSymlinks` treats exclusion specs exactly like
any other spec: realpath resolution IS attempted on the base, the spec is
passed through unchanged precisely when resolution fails or returns the base
itself, and it is duplicated with the real base when resolution yields a
different path. -/
theorem resolvePathSymlinks_exclusion_expanded (fs : FS) (cp : ContentPath)
    (_hmark : startsWithBang cp.original = true) :
    (fs.realpath cp.base = none → resolvePathSymlinks fs cp = [cp]) ∧
    (∀ p, fs.realpath cp.base = some p →
      (p = cp.base → resolvePathSymlinks fs cp = [cp]) ∧
      (p ≠ cp.base → resolvePathSymlinks fs cp =
        [cp, ContentPath.mk cp.original p cp.glob])) := by
  constructor
  · intro h
    simp [resolvePathSymlinks, h]
  · intro p hp
    constructor
    · intro he
      simp [resolvePathSymlinks, hp, he]
    · intro hne
      simp [resolvePathSymlinks, hp, hne]

theorem resolvePathSymlinks_exclusion_expanded_witness :
    startsWithBang exclSpec.original = true ∧
    ("/real") ≠ exclSpec.base ∧
    resolvePathSymlinks fsSym exclSpec =
      [exclSpec, ContentPath.mk exclSpec.original ("/real") exclSpec.glob] :=
  ⟨by decide, by decide,
    ((resolvePathSymlinks_exclusion_expanded fsSym exclSpec (by decide)).2
      ("/real") (by decide)).2 (by decide)⟩

/-- C4: for a non-exclusion spec, symlink expansion returns exactly the
original plus a re-based clone when realpath succeeds with a different path,
and exactly the unchanged spec when realpath returns the base itself or
fails (the failure is swallowed: the function is total and surfaces no
error). -/
theorem resolvePathSymlinks_cases (fs : FS) (cp : ContentPath)
    (_hmark : startsWithBang cp.original = false) :
    (∀ p, fs.realpath cp.base = some p → p ≠ cp.base →
      resolvePathSymlinks fs cp = [cp, ContentPath.mk cp.original p cp.glob]) ∧
    (∀ p, fs.realpath cp.base = some p → p = cp.base →
      resolvePathSymlinks fs cp = [cp]) ∧
    (fs.realpath cp.base = none → resolvePathSymlinks fs cp = [cp]) := by
  refine ⟨?_, ?_, ?_⟩
  · intro p hp hne
    simp [resolvePathSymlinks, hp, hne]
  · intro p hp he
    simp [resolvePathSymlinks, hp, he]
  · intro h
    simp [resolvePathSymlinks, h]

theorem resolvePathSymlinks_cases_witness :
    startsWithBang linkSpec.original = false ∧
    fsSym.realpath linkSpec.base = some ("/real") ∧
    ("/real") ≠ linkSpec.base ∧
    resolvePathSymlinks fsSym linkSpec =
      [linkSpec, ContentPath.mk linkSpec.original ("/real") linkSpec.glob] :=
  ⟨by decide, by decide, by decide,
    (resolvePathSymlinks_cases fsSym linkSpec (by decide)).1
      ("/real") (by decide) (by decide)⟩

/-- Concrete path environment used to instantiate theorems: separators are
already normal, a string is a glob iff it contains a star, `parseGlob`
splits nothing, and `path.resolve` always lands on the absolute /abs. -/
def envW : Env :=
  ⟨id, fun s => s.data.contains ('*'), fun s => (s, s), id,
    fun _ _ => ("/abs"), fun _ => ("")⟩

/-- Concrete resolution context with a known config path and the
resolve-relative-to-config flag enabled. -/
def ctxW : Context := ⟨some ("/proj/tailwind.config.js"), true⟩

/-- C5: a string without glob metacharacters (the is-glob oracle rejects its
normalized form) is parsed to exactly one spec whose base is the normalized
input and whose pattern is null, and conversely a null pattern only arises
from such literal inputs. -/
theorem classifyContentPath_literal (env : Env) (s : String) :
    (env.isGlob (env.normalizePath s) = false →
      classifyContentPath env s =
        [ContentPath.mk (env.normalizePath s) (env.normalizePath s) none]) ∧
    (∀ cp, cp ∈ classifyContentPath env s → cp.glob = none →
      env.isGlob (env.normalizePath s) = false) := by
  constructor
  · intro h
    simp [classifyContentPath, h]
  · intro cp hmem hglob
    by_cases hg : env.isGlob (env.normalizePath s) = true
    · exfalso
      simp only [classifyContentPath, hg, if_true, List.mem_singleton] at hmem
      rw [hmem] at hglob
      exact Option.noConfusion hglob
    · simpa using hg

theorem classifyContentPath_literal_witness :
    envW.isGlob (envW.normalizePath ("src/a.html")) = false ∧
    classifyContentPath envW ("src/a.html") =
      [ContentPath.mk ("src/a.html") ("src/a.html") none] :=
  ⟨by decide, (classifyContentPath_literal envW ("src/a.html")).1 (by decide)⟩

/-- C6: `resolveRelativePaths` rebases every spec with the config file
directory as resolution root exactly when the config path is known (truthy)
and the resolve-relative-to-config flag is enabled, and with the working
directory alone otherwise; it is total (one output spec per input spec,
independent of whether any base exists on disk) and, granted the
`path.resolve` contract, every produced base is absolute. -/
theorem resolveRelativePaths_correct (env : Env) (ctx : Context)
    (paths : List ContentPath)
    (habs : ∀ roots s, isAbsolutePath (env.pathResolve roots s) = true) :
    ((jsTruthy ctx.userConfigPath && ctx.resolveContentRelativeToConfig) = true →
      resolveRelativePaths env ctx paths = paths.map fun cp =>
        ContentPath.mk cp.original
          (env.pathResolve [env.dirname (optStr ctx.userConfigPath)] cp.base) cp.glob) ∧
    ((jsTruthy ctx.userConfigPath && ctx.resolveContentRelativeToConfig) = false →
      resolveRelativePaths env ctx paths = paths.map fun cp =>
        ContentPath.mk cp.original (env.pathResolve [] cp.base) cp.glob) ∧
    (∀ cp, cp ∈ resolveRelativePaths env ctx paths → isAbsolutePath cp.base = true) ∧
    (resolveRelativePaths env ctx paths).length = paths.length := by
  refine ⟨?_, ?_, ?_, ?_⟩
  · intro h
    simp [resolveRelativePaths, h]
  · intro h
    simp [resolveRelativePaths, h]
  · intro cp hmem
    simp only [resolveRelativePaths, List.mem_map] at hmem
    obtain ⟨a, _, heq⟩ := hmem
    rw [← heq]
    exact habs _ _
  · simp [resolveRelativePaths]

theorem envW_pathResolve_absolute : ∀ roots s, isAbsolutePath (envW.pathResolve roots s) = true :=
  fun _ _ => (by decide : isAbsolutePath ("/abs") = true)

theorem resolveRelativePaths_correct_witness :
    (jsTruthy ctxW.userConfigPath && ctxW.resolveContentRelativeToConfig) = true ∧
    resolveRelativePaths envW ctxW candW = candW.map (fun cp =>
      ContentPath.mk cp.original
        (envW.pathResolve [envW.dirname (optStr ctxW.userConfigPath)] cp.base) cp.glob) ∧
    (resolveRelativePaths envW ctxW candW).length = candW.length :=
  ⟨by decide,
    (resolveRelativePaths_correct envW ctxW candW envW_pathResolve_absolute).1 (by decide),
    (resolveRelativePaths_correct envW ctxW candW envW_pathResolve_absolute).2.2.2⟩

theorem readChanged_ok_prefix (fs : FS) (env : Env) :
    ∀ (files : List String) (acc l : List ContentOut),
      readChanged fs env acc files = Except.ok l → ∃ rest, l = acc ++ rest := by
  intro files
  induction files with
  | nil =>
    intro acc l h
    simp only [readChanged] at h
    cases h
    exact ⟨[], by simp⟩
  | cons file rest ih =>
    intro acc l h
    simp only [readChanged] at h
    cases hr : fs.read file with
    | none =>
      rw [hr] at h
      exact absurd h (by simp)
    | some content =>
      rw [hr] at h
      obtain ⟨r2, hr2⟩ := ih _ _ h
      exact ⟨ContentOut.mk content ((env.extname file).drop 1) :: r2, by rw [hr2]; simp⟩

theorem readChanged_error_iff (fs : FS) (env : Env) :
    ∀ (files : List String) (acc : List ContentOut),
      (∃ e, readChanged fs env acc files = Except.error e) ↔
        ∃ f ∈ files, fs.read f = none := by
  intro files
  induction files with
  | nil =>
    intro acc
    simp [readChanged]
  | cons file rest ih =>
    intro acc
    cases hr : fs.read file with
    | none =>
      simp only [readChanged, hr]
      constructor
      · intro _
        exact ⟨file, by simp, hr⟩
      · intro _
        exact ⟨file, rfl⟩
    | some content =>
      simp only [readChanged, hr]
      rw [ih]
      constructor
      · rintro ⟨f, hf, hn⟩
        exact ⟨f, by simp [hf], hn⟩
      · rintro ⟨f, hf, hn⟩
        rcases List.mem_cons.mp hf with he | hm
        · subst he
          rw [hn] at hr
          exact Option.noConfusion hr
        · exact ⟨f, hm, hn⟩

theorem readChanged_error_mem (fs : FS) (env : Env) :
    ∀ (files : List String) (acc : List ContentOut) (e : String),
      readChanged fs env acc files = Except.error e →
        e ∈ files ∧ fs.read e = none := by
  intro files
  induction files with
  | nil =>
    intro acc e h
    simp only [readChanged] at h
    exact absurd h (by simp)
  | cons file rest ih =>
    intro acc e h
    simp only [readChanged] at h
    cases hr : fs.read file with
    | none =>
      rw [hr] at h
      cases h
      exact ⟨by simp, hr⟩
    | some content =>
      rw [hr] at h
      obtain ⟨hm, hn⟩ := ih _ _ h
      exact ⟨List.mem_cons_of_mem _ hm, hn⟩

/-- Concrete config list used to instantiate theorems: one raw inline entry
without a declared extension, then a file glob string. -/
def cfgW : List ConfigFile :=
  [ConfigFile.raw ("<div>") none, ConfigFile.path ("src/**/*.html")]

/-- Concrete result list of `resolvedChangedContent` on the witness inputs. -/
def lW : List ContentOut :=
  [ContentOut.mk ("<div>") ("html"), ContentOut.mk ("x") ("")]

/-- Concrete filesystem whose only matching file cannot be read (it vanished
between the glob match and the read). -/
def fsErr : FS :=
  ⟨fun _ => none, fun _ => [("/w/a.html")], fun _ => (5 : Int), fun _ => none⟩

/-- C7: on a successful call, the list returned by `resolvedChangedContent`
begins with exactly the raw inline entries of the configuration — raw-only,
in declaration order, with extension defaulting to html when undeclared —
for every filesystem and watermark table, hence independently of whether any
file changed. -/
theorem resolvedChangedContent_raw_first (fs : FS) (env : Env) (cfg : List ConfigFile)
    (cand : List ContentPath) (m0 : WMap) (l : List ContentOut)
    (hok : (resolvedChangedContent fs env cfg cand m0).1 = Except.ok l) :
    l.take (rawEntries cfg).length = rawEntries cfg ∧
    (∀ c e tail, rawEntries (ConfigFile.raw c (some e) :: tail) =
      ContentOut.mk c e :: rawEntries tail) ∧
    (∀ c tail, rawEntries (ConfigFile.raw c none :: tail) =
      ContentOut.mk c ("html") :: rawEntries tail) ∧
    (∀ p tail, rawEntries (ConfigFile.path p :: tail) = rawEntries tail) := by
  refine ⟨?_, fun c e tail => by simp [rawEntries],
    fun c tail => by simp [rawEntries], fun p tail => by simp [rawEntries]⟩
  have h := readChanged_ok_prefix fs env ((resolveChangedFiles fs cand m0).1)
    (rawEntries cfg) l hok
  obtain ⟨rest, hrest⟩ := h
  rw [hrest]
  simp

theorem resolvedChangedContent_raw_first_witness :
    (resolvedChangedContent fsW envW cfgW candW emptyWM).1 = Except.ok lW ∧
    lW.take (rawEntries cfgW).length = rawEntries cfgW :=
  ⟨rfl,
    (resolvedChangedContent_raw_first fsW envW cfgW candW emptyWM lW rfl).1⟩

/-- C8: `resolvedChangedContent` propagates a read failure as an error to
the caller — it returns an error exactly when some changed file cannot be
read, and the reported error names a changed file whose read failed; there
is no recovery or retry. -/
theorem resolvedChangedContent_read_failure_fatal (fs : FS) (env : Env)
    (cfg : List ConfigFile) (cand : List ContentPath) (m0 : WMap) :
    ((∃ f ∈ (resolveChangedFiles fs cand m0).1, fs.read f = none) ↔
      ∃ e, (resolvedChangedContent fs env cfg cand m0).1 = Except.error e) ∧
    (∀ e, (resolvedChangedContent fs env cfg cand m0).1 = Except.error e →
      e ∈ (resolveChangedFiles fs cand m0).1 ∧ fs.read e = none) := by
  have hdef : (resolvedChangedContent fs env cfg cand m0).1 =
      readChanged fs env (rawEntries cfg) ((resolveChangedFiles fs cand m0).1) := rfl
  constructor
  · rw [hdef]
    exact (readChanged_error_iff fs env ((resolveChangedFiles fs cand m0).1)
      (rawEntries cfg)).symm
  · intro e he
    rw [hdef] at he
    exact readChanged_error_mem fs env _ _ e he

theorem resolvedChangedContent_read_failure_fatal_witness :
    ("/w/a.html") ∈ (resolveChangedFiles fsErr candW emptyWM).1 ∧
    fsErr.read ("/w/a.html") = none :=
  (resolvedChangedContent_read_failure_fatal fsErr envW cfgW candW emptyWM).2
    ("/w/a.html") rfl

/-- C9: the watermark table is fully advanced before any file content is
read: when a read throws, the table `resolvedChangedContent` leaves behind
is exactly the one `resolveChangedFiles` produced, every changed file of the
scan (returned or not) already carries its new mtime, and a retried scan
against the unchanged filesystem reports no file. -/
theorem resolvedChangedContent_not_atomic (fs : FS) (env : Env)
    (cfg : List ConfigFile) (cand : List ContentPath) (m0 : WMap) (e : String)
    (_herr : (resolvedChangedContent fs env cfg cand m0).1 = Except.error e) :
    (resolvedChangedContent fs env cfg cand m0).2 = (resolveChangedFiles fs cand m0).2 ∧
    (∀ f, f ∈ (resolveChangedFiles fs cand m0).1 →
      (resolvedChangedContent fs env cfg cand m0).2 f = some (fs.mtime f)) ∧
    (resolveChangedFiles fs cand ((resolvedChangedContent fs env cfg cand m0).2)).1 = [] := by
  have hdef : (resolvedChangedContent fs env cfg cand m0).2 =
      (resolveChangedFiles fs cand m0).2 := rfl
  refine ⟨hdef, ?_, ?_⟩
  · intro f hf
    rw [hdef]
    exact ((resolveChangedFiles_consistent fs cand m0 f).1 hf).2
  · rw [hdef]
    exact resolveChangedFiles_again_empty fs cand m0

theorem resolvedChangedContent_not_atomic_witness :
    (resolvedChangedContent fsErr envW cfgW candW emptyWM).1 =
      Except.error ("/w/a.html") ∧
    ((resolvedChangedContent fsErr envW cfgW candW emptyWM).2 =
      (resolveChangedFiles fsErr candW emptyWM).2 ∧
    (resolveChangedFiles fsErr candW
      ((resolvedChangedContent fsErr envW cfgW candW emptyWM).2)).1 = []) :=
  ⟨rfl,
    (resolvedChangedContent_not_atomic fsErr envW cfgW candW emptyWM
      ("/w/a.html") rfl).1,
    (resolvedChangedContent_not_atomic fsErr envW cfgW candW emptyWM
      ("/w/a.html") rfl).2.2⟩

/-- C10: non-string configuration entries (in particular every raw inline
record) contribute zero ContentPath specs: `parseContentPath` maps them to
the empty list, and `parseCandidateFiles` sees only the string entries. -/
theorem parseCandidateFiles_ignores_raw (env : Env) (fs : FS) (ctx : Context)
    (c : String) (e : Option String) (files : List ConfigFile) :
    parseContentPath env fs ctx (ConfigFile.raw c e) = [] ∧
    parseCandidateFiles env fs ctx files = parseCandidateFiles env fs ctx
      (files.filter fun item =>
        match item with
        | ConfigFile.path _ => true
        | ConfigFile.raw _ _ => false) := by
  refine ⟨rfl, ?_⟩
  induction files with
  | nil => rfl
  | cons hd tl ih =>
    cases hd with
    | path s =>
      simp only [parseCandidateFiles, List.flatMap_cons, List.filter_cons] at ih ⊢
      rw [ih]
      simp
    | raw c2 e2 =>
      simp only [parseCandidateFiles, List.flatMap_cons, List.filter_cons] at ih ⊢
      simpa [parseContentPath] using ih

end TailwindContent
